import Mathlib

/-!
Verification development for the concurrent `find` clone in `src/find.cpp`
(repository grobx/unix-find).

The C++ source is shallowly embedded below:

* the filesystem seen by the program is a finite tree (`FSTree`) whose nodes
  record what `std::filesystem` reports for each `directory_entry`:
  `is_symlink()` (which uses the symlink status, so it is `true` for every
  link) and `is_directory()` / `is_regular_file()` (which follow links);
* `std::regex` patterns produced by `finder::params::regex_from` are embedded
  by a small ECMAScript-fragment parser (`parseItems`) plus an anchored
  matcher (`rmatchL`) that models `std::regex_match`; constructs outside the
  fragment used by this program are conservatively rejected by the parser;
* `finder::params::from` / `finder::run` / `finder::run_visit` /
  `finder::shall_print` / `finder::print_entry` are embedded as pure
  functions; the concurrent queue/task machinery of `finder::thread` is
  embedded as a transition system (`DStep`) whose atomic steps correspond to
  the critical sections executed under `m_mtx`.
-/

/-- A finite filesystem tree, as the traversal observes it through
`std::filesystem::directory_entry`.  A symbolic link is recorded together
with the classification of its resolved target (`linkFile`: target is a
regular file, `linkDir`: target is a directory, with the target's children,
`linkBroken`: target does not exist), because `is_directory()` and
`is_regular_file()` follow the link while `is_symlink()` does not. -/
inductive FSTree where
  | file : String → FSTree
  | dir : String → List FSTree → FSTree
  | linkFile : String → FSTree
  | linkDir : String → List FSTree → FSTree
  | linkBroken : String → FSTree

/-- The name of the entry (its final path component on disk). -/
def FSTree.name : FSTree → String
  | .file n => n
  | .dir n _ => n
  | .linkFile n => n
  | .linkDir n _ => n
  | .linkBroken n => n

/-- `directory_entry::is_symlink()`: true exactly for symbolic links
(it inspects the symlink status, it does not follow the link). -/
def FSTree.isSymlink : FSTree → Bool
  | .file _ => false
  | .dir _ _ => false
  | .linkFile _ => true
  | .linkDir _ _ => true
  | .linkBroken _ => true

/-- `directory_entry::is_directory()`: follows symbolic links, so a link
whose target is a directory counts as a directory; a broken link does not. -/
def FSTree.isDirectory : FSTree → Bool
  | .file _ => false
  | .dir _ _ => true
  | .linkFile _ => false
  | .linkDir _ _ => true
  | .linkBroken _ => false

/-- `directory_entry::is_regular_file()`: follows symbolic links. -/
def FSTree.isRegularFile : FSTree → Bool
  | .file _ => true
  | .dir _ _ => false
  | .linkFile _ => true
  | .linkDir _ _ => false
  | .linkBroken _ => false

/-- `fs::exists` on the entry at a path: follows links, so a broken link
does not exist; everything else does. -/
def FSTree.fsExists : FSTree → Bool
  | .linkBroken _ => false
  | _ => true

/-- The children a `fs::directory_iterator` yields for an actual directory;
every other node has none (the iterator is only ever constructed for
non-symlink entries that passed an `is_directory` check, see `runVisit`). -/
def FSTree.children : FSTree → List FSTree
  | .dir _ cs => cs
  | _ => []

section RegexModel

/-- One atom of the ECMAScript-fragment regex model: a literal character,
the metacharacter `.` (any character except a line terminator), or a simple
bracket class `[abc]` given by its member characters. -/
inductive RAtom where
  | lit : Char → RAtom
  | dot : RAtom
  | cls : List Char → RAtom
deriving DecidableEq

/-- An atom, possibly under a postfix `*` quantifier. -/
inductive RItem where
  | once : RAtom → RItem
  | star : RAtom → RItem
deriving DecidableEq

/-- Reads a bracket-class body up to the closing `]`, returning the body and
the remaining input; `none` when the `]` is missing (the `error_brack`
failure of `std::regex`). -/
def takeClass : List Char → Option (List Char × List Char)
  | [] => none
  | c :: cs =>
    if c = ']' then some ([], cs)
    else (takeClass cs).map (fun p => (c :: p.1, p.2))

theorem takeClass_length : ∀ (cs b r : List Char),
    takeClass cs = some (b, r) → r.length < cs.length := by
  intro cs
  induction cs with
  | nil => intro b r h; simp [takeClass] at h
  | cons c cs ih =>
    intro b r h
    by_cases hc : c = ']'
    · rw [takeClass, if_pos hc] at h
      cases h
      simp
    · rw [takeClass, if_neg hc] at h
      rcases Option.map_eq_some'.mp h with ⟨p, hp, hpe⟩
      obtain ⟨b1, r1⟩ := p
      cases hpe
      have := ih b1 r1 hp
      simp only [List.length_cons]
      omega

/-- Characters inside a bracket class the model understands literally
(no ranges, negation or escapes: those are conservatively rejected). -/
def isClassChar (c : Char) : Bool :=
  c.isAlphanum || c = '.' || c = '_' || c = ' '

/-- Metacharacters the model conservatively rejects as an atom start
(a leading `*` really is the `error_badrepeat` failure of `std::regex`;
the others are outside the fragment this program's translation produces
from well-behaved glob inputs). -/
def isRejected (c : Char) : Bool :=
  c = '*' || c = '+' || c = '?' || c = '(' || c = ')' || c = ']' ||
  c = '\x7b' || c = '\x7d' || c = '|' || c = '^' || c = '$' || c = '\\'

/-- Parses a pattern string of the ECMAScript fragment into items: atoms
(`.`, literals, simple `[...]` classes) with optional postfix `*`.
Returns `none` where `std::regex` construction would throw (e.g. an
unmatched `[`, a dangling `*`), or where the pattern leaves the modelled
fragment (conservative rejection).  The first argument is recursion fuel:
every step consumes at least one input character, so fuel equal to the
input length (as supplied by `parseItems`) never runs out. -/
def parseItemsF : Nat → List Char → Option (List RItem)
  | _, [] => some []
  | 0, _ :: _ => none
  | fuel + 1, c :: cs =>
    if c = '[' then
      match takeClass cs with
      | none => none
      | some (body, rest) =>
        if body.all isClassChar then
          match rest with
          | '*' :: rest2 => (parseItemsF fuel rest2).map (fun is => .star (.cls body) :: is)
          | rest1 => (parseItemsF fuel rest1).map (fun is => .once (.cls body) :: is)
        else none
    else if isRejected c then none
    else
      let a := if c = '.' then RAtom.dot else RAtom.lit c
      match cs with
      | '*' :: rest2 => (parseItemsF fuel rest2).map (fun is => .star a :: is)
      | rest1 => (parseItemsF fuel rest1).map (fun is => .once a :: is)

/-- `parseItemsF` with sufficient fuel. -/
def parseItems (l : List Char) : Option (List RItem) := parseItemsF l.length l

/-- Case-insensitive character comparison, modelling the effect of
`std::regex_constants::icase`. -/
def eqIC (a b : Char) : Bool := a.toLower = b.toLower

/-- Whether an atom matches one character (ECMAScript `.` matches any
character except the line terminators). -/
def atomMatches (icase : Bool) (a : RAtom) (c : Char) : Bool :=
  match a with
  | .dot => !(c = '\n' || c = '\r' || c = '\u2028' || c = '\u2029')
  | .lit l => if icase then eqIC l c else l = c
  | .cls mem => mem.any (fun m => if icase then eqIC m c else m = c)

/-- Anchored whole-string matching of an item list, modelling
`std::regex_match` (which succeeds only when the WHOLE string matches). -/
def rmatchL (icase : Bool) : List RItem → List Char → Bool
  | [], [] => true
  | [], _ :: _ => false
  | .once _ :: _, [] => false
  | .once a :: is, c :: cs => atomMatches icase a c && rmatchL icase is cs
  | .star _ :: is, [] => rmatchL icase is []
  | .star a :: is, c :: cs =>
    rmatchL icase is (c :: cs) ||
      (atomMatches icase a c && rmatchL icase (.star a :: is) cs)
termination_by is s => (s.length, is.length)

/-- A compiled pattern as `finder::params` stores it: the translated regex
source text plus the `icase` flag.  (`std::regex` compiles the text at
construction; validity of the text is `patternValid`.) -/
structure Pattern where
  raw : String
  icase : Bool
deriving DecidableEq

/-- Whether `std::regex` construction succeeds on the pattern text
(within the modelled fragment). -/
def patternValid (p : Pattern) : Bool := (parseItems p.raw.data).isSome

/-- `std::regex_match(s, pattern)`: anchored whole-string match.  For a
pattern whose construction would have thrown, the value is irrelevant
(the real program never reaches matching: the `noexcept` constructor call
terminates the process); the model returns `false` there. -/
def patMatch (p : Pattern) (s : String) : Bool :=
  match parseItems p.raw.data with
  | some items => rmatchL p.icase items s.data
  | none => false

end RegexModel

section Translate

/-- `startsWithL p l`: the character list `l` starts with `p` (used to embed
`std::string::find`-based prefix tests and `starts_with`). -/
def startsWithL : List Char → List Char → Bool
  | [], _ => true
  | _ :: _, [] => false
  | p :: ps, c :: cs => p = c && startsWithL ps cs

/-- The scanning loop of `finder::params::replace_all`: replaces each
occurrence of `f` by `t`, left to right, resuming AFTER the inserted
replacement (`start_pos += to.length()`), so inserted text is never
rescanned.  The `f.length ≠ 0` test mirrors the function's early return for
an empty needle (it is a termination guard; `replaceAll` never calls the
loop with an empty `f`). -/
def raGo (f t : List Char) : List Char → List Char
  | [] => []
  | c :: cs =>
    if startsWithL f (c :: cs) = true ∧ f.length ≠ 0 then
      t ++ raGo f t ((c :: cs).drop f.length)
    else c :: raGo f t cs
termination_by l => l.length
decreasing_by
  · rename_i h
    have hf : f.length ≠ 0 := h.2
    simp only [List.length_cons, List.length_drop]
    omega
  · simp only [List.length_cons]
    omega

/-- `finder::params::replace_all`: returns the string unchanged when the
needle is empty ("avoid infinite loop"), else runs the scanning loop. -/
def replaceAll (s f t : String) : String :=
  if f.data = [] then s else String.mk (raGo f.data t.data s.data)

/-- `finder::params::regex_from`: translates a glob to a regex source by
replacing every `*` with `.*`, and records the case-insensitivity flag
(`icase` selects `ECMAScript|icase`).  The function is declared `noexcept`,
yet `std::regex`'s constructor throws on an invalid pattern text, which
terminates the process: see `patternValid`. -/
def regexFrom (s : String) (icase : Bool) : Pattern :=
  { raw := replaceAll s "*" ".*", icase := icase }

end Translate

section ParamsModel

/-- `finder::type_filter::kind`. -/
inductive TypeFilter where
  | directories
  | files
deriving DecidableEq

/-- `finder::type_filter::from`: only the one-character strings `d` and `f`
denote a type filter; anything else yields no filter (`std::nullopt`). -/
def typeFilterFrom (t : String) : Option TypeFilter :=
  match t.data with
  | [c] =>
    if c = 'd' then some .directories
    else if c = 'f' then some .files
    else none
  | _ => none

/-- `finder::params`: the optional root path and the three optional
filters. -/
structure Params where
  path : Option String
  type : Option TypeFilter
  name : Option Pattern
  iname : Option Pattern
deriving DecidableEq

/-- The default-constructed `params{}`: everything unset. -/
def emptyParams : Params :=
  { path := none, type := none, name := none, iname := none }

/-- `finder::error_code::kind`, with the same successor numbering starting
at `duplicate_arg = 1`. -/
inductive ErrorKind where
  | duplicate_arg
  | unknown_arg
  | generic
  | path_absent
  | path_not_exist
  | path_not_dir
deriving DecidableEq

/-- `error_code::value()`: the underlying integer of the enumerator. -/
def ErrorKind.value : ErrorKind → Nat
  | .duplicate_arg => 1
  | .unknown_arg => 2
  | .generic => 3
  | .path_absent => 4
  | .path_not_exist => 5
  | .path_not_dir => 6

/-- The `current` state of the argument loop in `finder::params::from`. -/
inductive Mode where
  | mnone
  | mtype
  | mname
  | miname
deriving DecidableEq

/-- The argument loop of `finder::params::from` (lines 261-312), carrying
`(obj, current)`; returns the final pair so that the loop's exit state is
visible (the source returns only `obj`, discarding `current`:
see `paramsFrom`).

One path of the real loop is NOT a return value at all: storing a `-name`
or `-iname` value calls `regex_from`, which is `noexcept` although
`std::regex`'s constructor throws on an invalid pattern text — there the
process terminates and neither a `params` object nor an `error_code` is
ever produced.  `pLoop` stores the translated pattern source and describes
the run only when that abort does not happen; `pLoopAborts` decides, along
the same control path, whether it does.  Statements about raw argument
values must therefore carry a `patternValid`/`pLoopAborts` side
condition. -/
def pLoop (obj : Params) (cur : Mode) : List String → Except ErrorKind (Params × Mode)
  | [] => .ok (obj, cur)
  | a :: rest =>
    match cur with
    | .mnone =>
      if a = "-type" then
        if (obj.type).isSome then .error .duplicate_arg
        else pLoop obj .mtype rest
      else if a = "-name" then
        if (obj.name).isSome then .error .duplicate_arg
        else pLoop obj .mname rest
      else if a = "-iname" then
        if (obj.iname).isSome then .error .duplicate_arg
        else pLoop obj .miname rest
      else .error .unknown_arg
    | .mtype => pLoop { obj with type := typeFilterFrom a } .mnone rest
    | .mname => pLoop { obj with name := some (regexFrom a false) } .mnone rest
    | .miname => pLoop { obj with iname := some (regexFrom a true) } .mnone rest

/-- `finder::params::from`, exposing the loop's final `(obj, current)`
pair: with at most one argument the default object is returned untouched;
otherwise `argv[1]`, when it does not start with `-`, is taken as the root
path and the modifier loop starts after it, else the loop starts at
`argv[1]`. -/
def paramsFromSt (args : List String) : Except ErrorKind (Params × Mode) :=
  if args.length ≤ 1 then .ok (emptyParams, .mnone)
  else
    match args.drop 1 with
    | [] => .ok (emptyParams, .mnone)
    | a :: rest =>
      if startsWithL "-".data a.data then pLoop emptyParams .mnone (a :: rest)
      else pLoop { emptyParams with path := some a } .mnone rest

/-- `finder::params::from` as the caller sees it: the loop's `obj`,
with the final `current` discarded (the source returns `obj` regardless of
a pending modifier).  Like `pLoop`, this describes the run only when
`constructionAborts` is false: otherwise the real process has terminated
inside `regex_from` and there is no returned value to model. -/
def paramsFrom (args : List String) : Except ErrorKind Params :=
  (paramsFromSt args).map Prod.fst

/-- Walks the same control path as `pLoop` and decides whether the real
run terminates inside the `noexcept` `regex_from` (lines 226-234): it does
exactly when the loop consumes a `-name` or `-iname` value whose
translated pattern text is invalid (`std::regex` throws, e.g.
`error_brack` for `[`, and the `noexcept` turns the throw into
`std::terminate`).  A `duplicate_arg` or `unknown_arg` return earlier in
the walk means no later value is ever consumed, hence no abort. -/
def pLoopAborts (obj : Params) (cur : Mode) : List String → Bool
  | [] => false
  | a :: rest =>
    match cur with
    | .mnone =>
      if a = "-type" then
        if (obj.type).isSome then false
        else pLoopAborts obj .mtype rest
      else if a = "-name" then
        if (obj.name).isSome then false
        else pLoopAborts obj .mname rest
      else if a = "-iname" then
        if (obj.iname).isSome then false
        else pLoopAborts obj .miname rest
      else false
    | .mtype => pLoopAborts { obj with type := typeFilterFrom a } .mnone rest
    | .mname =>
      if patternValid (regexFrom a false) = true then
        pLoopAborts { obj with name := some (regexFrom a false) } .mnone rest
      else true
    | .miname =>
      if patternValid (regexFrom a true) = true then
        pLoopAborts { obj with iname := some (regexFrom a true) } .mnone rest
      else true

/-- `pLoopAborts` lifted to a full command line, with the same prefix
handling as `paramsFromSt`: whether running `finder::params::from` on
these arguments terminates the process inside `regex_from` instead of
returning. -/
def constructionAborts (args : List String) : Bool :=
  if args.length ≤ 1 then false
  else
    match args.drop 1 with
    | [] => false
    | a :: rest =>
      if startsWithL "-".data a.data then pLoopAborts emptyParams .mnone (a :: rest)
      else pLoopAborts { emptyParams with path := some a } .mnone rest

end ParamsModel

section TraversalModel

/-- `fs::path::filename().native()`: the final path component, i.e. the
characters after the last `/`. -/
def fileNameL (l : List Char) : List Char :=
  (l.reverse.takeWhile (fun c => c ≠ '/')).reverse

/-- The base name of a path string (`entry.path().filename().native()`). -/
def fileName (s : String) : String := String.mk (fileNameL s.data)

/-- `finder::shall_print` (lines 413-443): starts from `res = true`,
overwrites `res` with the type classification when a type filter is set
(`is_directory()` for `d`, `is_regular_file()` for `f`), then conjoins the
anchored `std::regex_match` of the base name against the `-name` pattern
and against the `-iname` pattern when those are set. -/
def shallPrint (prm : Params) (path : String) (t : FSTree) : Bool :=
  let res := true
  let res := match prm.type with
    | some .directories => t.isDirectory
    | some .files => t.isRegularFile
    | none => res
  let res := match prm.name with
    | some pat => res && patMatch pat (fileName path)
    | none => res
  match prm.iname with
  | some pat => res && patMatch pat (fileName path)
  | none => res

/-- The filter contract in the words of the specification: each supplied
constraint must hold (type classification equal to the filter; base name an
anchored full match of the pattern; likewise case-insensitively), the set
constraints combined with logical AND, and with nothing set every entry
matches.  Stated separately from `shallPrint` to be compared with it. -/
def matchesSpec (prm : Params) (path : String) (t : FSTree) : Bool :=
  (match prm.type with
   | some .directories => t.isDirectory
   | some .files => t.isRegularFile
   | none => true)
  && (match prm.name with
      | some pat => patMatch pat (fileName path)
      | none => true)
  && (match prm.iname with
      | some pat => patMatch pat (fileName path)
      | none => true)

mutual

/-- `finder::run_visit` (lines 468-481), collapsed over the task queue: a
symlinked entry returns at once (nothing printed, nothing enumerated);
otherwise the entry itself is offered to `print_entry` (which prints its
path exactly when `shall_print` accepts it), and each child yielded by the
directory iterator is either pushed for a later `run_visit` of its own when
`is_directory()` holds (modelled by the recursive call: every queued entry
is popped and scanned exactly once by the dispatcher) or offered to
`print_entry` directly.  The result is the multiset of printed lines; the
concrete interleaving of the worker tasks only permutes it.  (A `file`
entry never reaches this function: only directories are enqueued and the
validated root is a directory.) -/
def runVisit (prm : Params) (path : String) : FSTree → List String
  | .dir n cs =>
    (if shallPrint prm path (.dir n cs) then [path] else []) ++
      runChildren prm path cs
  | .file n => if shallPrint prm path (.file n) then [path] else []
  | .linkFile _ => []
  | .linkDir _ _ => []
  | .linkBroken _ => []

/-- The `for (auto& e : it)` loop body of `finder::run_visit`, applied to
each child in iterator order. -/
def runChildren (prm : Params) (path : String) : List FSTree → List String
  | [] => []
  | c :: cs =>
    (if c.isDirectory then runVisit prm (path ++ "/" ++ c.name) c
     else if shallPrint prm (path ++ "/" ++ c.name) c then
       [path ++ "/" ++ c.name]
     else []) ++
      runChildren prm path cs

end

/-- The action of `finder::run_visit`'s loop on one child `c` of the
directory at `path`: `visit` (enqueue for a later scan) when
`is_directory()` holds, else `print_entry`. -/
def childStep (prm : Params) (path : String) (c : FSTree) : List String :=
  if c.isDirectory then runVisit prm (path ++ "/" ++ c.name) c
  else if shallPrint prm (path ++ "/" ++ c.name) c then
    [path ++ "/" ++ c.name]
  else []

theorem runChildren_cons (prm : Params) (path : String) (c : FSTree)
    (cs : List FSTree) :
    runChildren prm path (c :: cs) =
      childStep prm path c ++ runChildren prm path cs := by
  rw [runChildren, childStep]

mutual

/-- The entries reachable from a root entry without following any symbolic
link, each with the path under which the traversal would meet it: the entry
itself, and, when it is an actual directory (not a symlink to one), the
entries reachable from its children. -/
def reachable (path : String) : FSTree → List (String × FSTree)
  | .dir n cs => (path, .dir n cs) :: reachableL path cs
  | .file n => [(path, .file n)]
  | .linkFile n => [(path, .linkFile n)]
  | .linkDir n cs => [(path, .linkDir n cs)]
  | .linkBroken n => [(path, .linkBroken n)]

/-- `reachable` over a list of children. -/
def reachableL (path : String) : List FSTree → List (String × FSTree)
  | [] => []
  | c :: cs => reachable (path ++ "/" ++ c.name) c ++ reachableL path cs

end

/-- `finder::run` (lines 338-363) up to its traversal: no root path at all
is `path_absent`; a root that `fs::exists` denies is `path_not_exist`; an
existing root that is not a directory is `path_not_dir`; each returned as
the typed `std::expected` error BEFORE any entry is queued.  Otherwise the
root is seeded and the traversal produces its printed lines, the dispatcher
returning `EXIT_SUCCESS`.  The filesystem is a map from path strings to the
entry found there (`none`: no entry at all). -/
def finderRun (prm : Params) (fs : String → Option FSTree) :
    Except ErrorKind (List String) :=
  match prm.path with
  | none => .error .path_absent
  | some p =>
    match fs p with
    | none => .error .path_not_exist
    | some t =>
      if t.fsExists = false then .error .path_not_exist
      else if t.isDirectory = false then .error .path_not_dir
      else .ok (runVisit prm p t)

/-- `main`'s tail `or_else(finder::handle_err).value()`: an error becomes
the process exit status `error_code::value()` with nothing on standard
output; success is exit status `0` with the printed lines. -/
def runExit : Except ErrorKind (List String) → Nat × List String
  | .error e => (e.value, [])
  | .ok out => (0, out)

/-- `main`: construction (`finder::from`) chained with `finder::run`,
then `handle_err` for either error. -/
def mainRun (args : List String) (fs : String → Option FSTree) :
    Nat × List String :=
  runExit ((paramsFrom args).bind (fun prm => finderRun prm fs))

end TraversalModel

section DispatcherModel

mutual

/-- The number of `run_visit` invocations an entry will cause: one for the
entry itself, plus one for every reachable descendant that gets enqueued
(children of actual directories; a symlinked directory contributes only
itself, since `run_visit` returns before enumerating it). -/
def visitWork : FSTree → Nat
  | .dir _ cs => 1 + visitWorkL cs
  | .file _ => 1
  | .linkFile _ => 1
  | .linkDir _ _ => 1
  | .linkBroken _ => 1

/-- `visitWork` summed over a list of children. -/
def visitWorkL : List FSTree → Nat
  | [] => 0
  | c :: cs => visitWork c + visitWorkL cs

end

/-- The dispatcher's shared state under `m_mtx`: the pending entries of
`m_queue` (front first) and the outstanding scan tasks of `m_tasks`, each
task recorded as the entry it is scanning. -/
structure DState where
  queue : List (String × FSTree)
  tasks : List (String × FSTree)

/-- The entries a completed scan of `e` has pushed onto the queue: none for
a symlinked entry (`run_visit` returns at once), else the children with
`is_directory()` true, in iterator order, under their child paths. -/
def spawn (e : String × FSTree) : List (String × FSTree) :=
  if e.2.isSymlink then []
  else (e.2.children.filter (fun c => c.isDirectory)).map
    (fun c => (e.1 ++ "/" ++ c.name, c))

/-- One atomic transition of the traversal engine, i.e. one critical
section under `m_mtx`:

* `launch` is the dispatcher's loop body when the queue is non-empty: it
  pops the front entry and starts an async scan task for it
  (`finder::thread`, lines 399-405);
* `complete` is the retirement of one outstanding scan: the task has pushed
  its spawned child directories (each push holds `m_mtx`) and its future is
  reaped from `m_tasks` (lines 383-391).  A task is only reaped after its
  `run_visit` returned, so all its pushes precede its removal — which is
  why recording the pushes at completion is a sound abstraction for the
  quiescence test. -/
inductive DStep : DState → DState → Prop where
  | launch (e : String × FSTree) (rest tasks : List (String × FSTree)) :
      DStep ⟨e :: rest, tasks⟩ ⟨rest, tasks ++ [e]⟩
  | complete (q pre post : List (String × FSTree)) (e : String × FSTree) :
      DStep ⟨q, pre ++ e :: post⟩ ⟨q ++ spawn e, pre ++ post⟩

/-- The dispatcher's exit condition (lines 393-395): the loop breaks — with
`EXIT_SUCCESS` — exactly when `m_queue` and `m_tasks` are both empty. -/
def Drained (s : DState) : Prop := s.queue = [] ∧ s.tasks = []

/-- Termination measure: a queued entry still owes all of its visits; an
outstanding task has already consumed one. -/
def dMeasure (s : DState) : Nat :=
  (s.queue.map (fun e => 2 * visitWork e.2)).sum +
    (s.tasks.map (fun e => 2 * visitWork e.2 - 1)).sum

theorem visitWork_pos : ∀ t : FSTree, 1 ≤ visitWork t := by
  intro t
  cases t <;> simp [visitWork]

theorem spawn_weight (e : String × FSTree) :
    ((spawn e).map (fun e => 2 * visitWork e.2)).sum + 2 ≤
      2 * visitWork e.2 ∨ spawn e = [] := by
  obtain ⟨p, t⟩ := e
  cases t with
  | dir n cs =>
    left
    have haux : ∀ cs : List FSTree,
        ((cs.filter (fun c => c.isDirectory)).map
          (fun c => 2 * visitWork c)).sum ≤ 2 * visitWorkL cs := by
      intro cs
      induction cs with
      | nil => simp [visitWorkL]
      | cons c cs ih =>
        rw [List.filter_cons]
        by_cases hc : c.isDirectory
        · simp only [hc, if_true, List.map_cons, List.sum_cons, visitWorkL]
          omega
        · simp only [hc, Bool.false_eq_true, if_false, visitWorkL]
          omega
    have hcomp : ((fun e : String × FSTree => 2 * visitWork e.2) ∘
        (fun c : FSTree => (p ++ "/" ++ c.name, c))) =
          (fun c : FSTree => 2 * visitWork c) := rfl
    simp only [spawn, FSTree.isSymlink, FSTree.children, visitWork,
      Bool.false_eq_true, if_false, List.map_map, hcomp]
    have h2 := haux cs
    omega
  | file n => right; simp [spawn, FSTree.isSymlink, FSTree.children]
  | linkFile n => right; simp [spawn, FSTree.isSymlink]
  | linkDir n cs => right; simp [spawn, FSTree.isSymlink]
  | linkBroken n => right; simp [spawn, FSTree.isSymlink]

theorem dMeasure_step {s s' : DState} (h : DStep s s') :
    dMeasure s' < dMeasure s := by
  cases h with
  | launch e rest tasks =>
    have := visitWork_pos e.2
    simp only [dMeasure, List.map_cons, List.sum_cons, List.map_append,
      List.sum_append, List.map_nil, List.sum_nil]
    omega
  | complete q pre post e =>
    have hw := visitWork_pos e.2
    rcases spawn_weight e with hs | hs
    · simp only [dMeasure, List.map_append, List.sum_append, List.map_cons,
        List.sum_cons]
      omega
    · simp only [dMeasure, hs, List.map_append, List.sum_append,
        List.map_cons, List.sum_cons, List.map_nil, List.sum_nil]
      omega

theorem dStep_progress (s : DState) (h : ¬ Drained s) :
    ∃ s', DStep s s' := by
  obtain ⟨q, tasks⟩ := s
  match q, tasks with
  | e :: rest, tasks => exact ⟨_, DStep.launch e rest tasks⟩
  | [], e :: post => exact ⟨_, DStep.complete [] [] post e⟩
  | [], [] => exact absurd ⟨rfl, rfl⟩ h

theorem drained_iff_stuck (s : DState) :
    Drained s ↔ ¬ ∃ s', DStep s s' := by
  constructor
  · rintro ⟨hq, ht⟩ ⟨s', hs⟩
    cases hs with
    | launch e rest tasks => simp at hq
    | complete q pre post e => simp at ht
  · intro h
    by_contra hd
    exact h (dStep_progress s hd)

theorem dStep_reaches_drained (s : DState) :
    ∃ s', Relation.ReflTransGen DStep s s' ∧ Drained s' := by
  by_cases hd : Drained s
  · exact ⟨s, Relation.ReflTransGen.refl, hd⟩
  · obtain ⟨s1, h1⟩ := dStep_progress s hd
    obtain ⟨s', hs', hd'⟩ := dStep_reaches_drained s1
    exact ⟨s', Relation.ReflTransGen.head h1 hs', hd'⟩
termination_by dMeasure s
decreasing_by
  exact dMeasure_step h1

end DispatcherModel

section TraversalLemmas

/-- Which reachable entries the traversal prints: those accepted by
`shall_print`, except that an entry that is both a symlink and classified
as a directory is enqueued and then discarded by `run_visit`'s symlink
check before `print_entry` ever sees it. -/
def printedPred (prm : Params) (e : String × FSTree) : Bool :=
  shallPrint prm e.1 e.2 && (!(e.2.isSymlink) || !(e.2.isDirectory))

mutual

theorem runVisit_dir_eq (prm : Params) :
    ∀ (path n : String) (cs : List FSTree),
    runVisit prm path (.dir n cs) =
      ((reachable path (.dir n cs)).filter (printedPred prm)).map Prod.fst := by
  intro path n cs
  rw [runVisit, reachable, List.filter_cons]
  have hpp : printedPred prm (path, .dir n cs) = shallPrint prm path (.dir n cs) := by
    simp [printedPred, FSTree.isSymlink]
  by_cases hs : shallPrint prm path (.dir n cs)
  · rw [hpp, if_pos hs, if_pos hs, List.map_cons, runChildren_eq prm path cs]
    rfl
  · rw [hpp, if_neg hs, if_neg hs, runChildren_eq prm path cs]
    rfl

theorem runChildren_eq (prm : Params) :
    ∀ (path : String) (cs : List FSTree),
    runChildren prm path cs =
      ((reachableL path cs).filter (printedPred prm)).map Prod.fst := by
  intro path cs
  match cs with
  | [] => rw [runChildren, reachableL]; rfl
  | c :: cs =>
    rw [runChildren, reachableL, List.filter_append, List.map_append,
      runChildren_eq prm path cs]
    have hc : (if c.isDirectory then runVisit prm (path ++ "/" ++ c.name) c
        else if shallPrint prm (path ++ "/" ++ c.name) c then
          [path ++ "/" ++ c.name]
        else []) =
        ((reachable (path ++ "/" ++ c.name) c).filter (printedPred prm)).map
          Prod.fst := by
      cases c with
      | dir n2 cs2 =>
        rw [if_pos (by rfl), runVisit_dir_eq prm (path ++ "/" ++ FSTree.name (.dir n2 cs2)) n2 cs2]
      | file n2 =>
        rw [if_neg (by simp [FSTree.isDirectory]), reachable]
        by_cases hs : shallPrint prm (path ++ "/" ++ FSTree.name (.file n2)) (.file n2)
        · simp [printedPred, hs, FSTree.isSymlink]
        · simp [printedPred, hs]
      | linkFile n2 =>
        rw [if_neg (by simp [FSTree.isDirectory]), reachable]
        by_cases hs : shallPrint prm (path ++ "/" ++ FSTree.name (.linkFile n2)) (.linkFile n2)
        · simp [printedPred, hs, FSTree.isSymlink, FSTree.isDirectory]
        · simp [printedPred, hs]
      | linkBroken n2 =>
        rw [if_neg (by simp [FSTree.isDirectory]), reachable]
        by_cases hs : shallPrint prm (path ++ "/" ++ FSTree.name (.linkBroken n2)) (.linkBroken n2)
        · simp [printedPred, hs, FSTree.isSymlink, FSTree.isDirectory]
        · simp [printedPred, hs]
      | linkDir n2 cs2 =>
        rw [if_pos (by rfl), runVisit, reachable]
        simp [printedPred, FSTree.isSymlink, FSTree.isDirectory]
    rw [hc]

end

end TraversalLemmas

section ClaimsTraversal

/-- C1 (counterexample): completeness fails as stated.  In the tree
`root` whose only child `l` is a symlink to a directory, the entry
`root/l` satisfies the empty filter and is reached without following any
symlink (it is a direct child of the root), yet the traversal prints only
`root`: the child is enqueued (`is_directory()` follows the link) and then
discarded by `run_visit`'s symlink check before `print_entry` runs. -/
theorem c1_counterexample :
    runVisit emptyParams "root" (.dir "root" [.linkDir "l" []]) = ["root"] ∧
    reachable "root" (.dir "root" [.linkDir "l" []]) =
      [("root", .dir "root" [.linkDir "l" []]), ("root/l", .linkDir "l" [])] ∧
    shallPrint emptyParams "root/l" (.linkDir "l" []) = true := by
  refine ⟨?_, rfl, rfl⟩
  simp [runVisit, runChildren, shallPrint, emptyParams, FSTree.isDirectory,
    FSTree.name]

/-- C1 (amended): for every root directory and filter, the printed lines
are EXACTLY, in enumeration order and with their multiplicities, the paths
of the entries reachable without following a symlink that `shall_print`
accepts — except that an entry that is both a symlink and classified as a
directory is never printed.  Soundness holds as claimed; completeness
holds for every reachable entry that is not a symlinked directory. -/
theorem c1_traversal_sound_complete (prm : Params) (path n : String)
    (cs : List FSTree) :
    runVisit prm path (.dir n cs) =
      ((reachable path (.dir n cs)).filter (printedPred prm)).map Prod.fst :=
  runVisit_dir_eq prm path n cs

/-- C4 (counterexample): a symlink whose target is not a directory IS
printed when it matches: in the tree `root` with the single symlink-to-file
child `s` and no filters, the traversal prints `root/s` although that entry
is a symbolic link — `run_visit`'s loop sends a non-directory child
straight to `print_entry` with no symlink check. -/
theorem c4_counterexample :
    FSTree.isSymlink (.linkFile "s") = true ∧
    runVisit emptyParams "root" (.dir "root" [.linkFile "s"]) =
      ["root", "root/s"] := by
  refine ⟨rfl, ?_⟩
  simp [runVisit, runChildren, shallPrint, emptyParams, FSTree.isDirectory,
    FSTree.name]

/-- C4 (amended): a symlinked entry scanned from the queue is skipped
entirely (nothing printed, nothing descended); a symlink child classified
as a directory is enqueued and then skipped the same way, so it is neither
printed nor descended into; but a symlink child NOT classified as a
directory is handed directly to `print_entry` and is printed exactly when
it matches the filter (it is still never descended into: its contribution
is at most its own path). -/
theorem c4_symlink_handling :
    (∀ (prm : Params) (path : String) (t : FSTree),
      t.isSymlink = true → runVisit prm path t = []) ∧
    (∀ (prm : Params) (path : String) (c : FSTree),
      c.isSymlink = true → c.isDirectory = true →
      childStep prm path c = []) ∧
    (∀ (prm : Params) (path : String) (c : FSTree),
      c.isSymlink = true → c.isDirectory = false →
      childStep prm path c =
        if shallPrint prm (path ++ "/" ++ c.name) c then
          [path ++ "/" ++ c.name]
        else []) := by
  refine ⟨?_, ?_, ?_⟩
  · intro prm path t ht
    cases t with
    | file n => simp [FSTree.isSymlink] at ht
    | dir n cs => simp [FSTree.isSymlink] at ht
    | linkFile n => rw [runVisit]
    | linkDir n cs => rw [runVisit]
    | linkBroken n => rw [runVisit]
  · intro prm path c hs hd
    cases c with
    | file n => simp [FSTree.isSymlink] at hs
    | dir n cs => simp [FSTree.isSymlink] at hs
    | linkFile n => simp [FSTree.isDirectory] at hd
    | linkDir n cs => rw [childStep, if_pos (by rfl), runVisit]
    | linkBroken n => simp [FSTree.isDirectory] at hd
  · intro prm path c hs hd
    cases c with
    | file n => simp [FSTree.isSymlink] at hs
    | dir n cs => simp [FSTree.isSymlink] at hs
    | linkFile n => rw [childStep, if_neg (by simp [FSTree.isDirectory])]
    | linkDir n cs => simp [FSTree.isDirectory] at hd
    | linkBroken n => rw [childStep, if_neg (by simp [FSTree.isDirectory])]

/-- Witness for `c4_symlink_handling` at concrete symlink entries. -/
theorem c4_witness :
    runVisit emptyParams "p" (.linkDir "l" [.file "x"]) = [] ∧
    childStep emptyParams "p" (.linkDir "l" [.file "x"]) = [] ∧
    childStep emptyParams "p" (.linkFile "s") =
      (if shallPrint emptyParams ("p" ++ "/" ++ FSTree.name (.linkFile "s"))
          (.linkFile "s") then
        ["p" ++ "/" ++ FSTree.name (.linkFile "s")]
      else []) :=
  ⟨c4_symlink_handling.1 emptyParams "p" (.linkDir "l" [.file "x"]) rfl,
   c4_symlink_handling.2.1 emptyParams "p" (.linkDir "l" [.file "x"]) rfl rfl,
   c4_symlink_handling.2.2 emptyParams "p" (.linkFile "s") rfl rfl⟩

/-- C5: symlinked directories are never expanded.  Scanning a symlink to a
directory prints nothing at all, whatever the target subtree holds; and
every path the traversal of a root directory prints is the path of an
entry reachable WITHOUT following any symlink, so no path obtained by
passing through a link is ever printed. -/
theorem c5_symlinked_dir_never_expanded :
    (∀ (prm : Params) (path nm : String) (sub : List FSTree),
      runVisit prm path (.linkDir nm sub) = []) ∧
    (∀ (prm : Params) (path n : String) (cs : List FSTree) (s : String),
      s ∈ runVisit prm path (.dir n cs) →
      s ∈ (reachable path (.dir n cs)).map Prod.fst) := by
  constructor
  · intro prm path nm sub
    rw [runVisit]
  · intro prm path n cs s hs
    rw [runVisit_dir_eq] at hs
    rcases List.mem_map.mp hs with ⟨e, he, rfl⟩
    exact List.mem_map_of_mem _ (List.mem_of_mem_filter he)

/-- Witness for `c5_symlinked_dir_never_expanded` on a concrete tree. -/
theorem c5_witness :
    "root" ∈ (reachable "root" (.dir "root" [])).map Prod.fst :=
  c5_symlinked_dir_never_expanded.2 emptyParams "root" "root" [] "root"
    (by simp [runVisit, runChildren, shallPrint, emptyParams])

end ClaimsTraversal

section ClaimsFilterDispatcher

/-- C2: `shall_print` coincides with the specification's conjunction: the
type constraint (classification equal to the filter), the anchored
full-match of the base name against the `-name` pattern, and likewise
case-insensitively for `-iname`, combined with logical AND; with nothing
set every entry matches.  The last two conjuncts exhibit the anchoring:
the compiled pattern of glob `a` matches the name `a` and does NOT match
the name `ab` (no substring search). -/
theorem c2_filter_matches_spec :
    (∀ (prm : Params) (path : String) (t : FSTree),
      shallPrint prm path t = matchesSpec prm path t) ∧
    (∀ (pth : Option String) (path : String) (t : FSTree),
      shallPrint { path := pth, type := none, name := none, iname := none }
        path t = true) ∧
    patMatch (regexFrom "a" false) "a" = true ∧
    patMatch (regexFrom "a" false) "ab" = false := by
  refine ⟨?_, ?_, ?_, ?_⟩
  · intro prm path t
    obtain ⟨pth, ty, nm, inm⟩ := prm
    rcases ty with _ | tf
    · cases nm <;> cases inm <;> simp [shallPrint, matchesSpec]
    · cases tf <;> cases nm <;> cases inm <;> simp [shallPrint, matchesSpec]
  · intro pth path t
    rfl
  · simp [patMatch, regexFrom, replaceAll, raGo, startsWithL, parseItems,
      parseItemsF, isRejected, rmatchL, atomMatches]
  · simp [patMatch, regexFrom, replaceAll, raGo, startsWithL, parseItems,
      parseItemsF, isRejected, rmatchL, atomMatches]

/-- C3: the dispatcher's engine, one atomic critical section per step
(`launch` = pop the queue's front and start a scan task, `complete` =
retire a finished scan after its pushes).  Every step strictly decreases
the `dMeasure` of the remaining work, so for every finite tree only
finitely many steps can happen; from every state a Drained state is
actually reached; and the loop can exit — i.e. no step applies — exactly
when the queue and the outstanding-task list are both empty, the break
condition of `finder::thread` evaluated in one critical section. -/
theorem c3_dispatcher_drains :
    (∀ s s' : DState, DStep s s' → dMeasure s' < dMeasure s) ∧
    (∀ s : DState, ∃ s', Relation.ReflTransGen DStep s s' ∧ Drained s') ∧
    (∀ s : DState, Drained s ↔ ¬ ∃ s', DStep s s') :=
  ⟨fun _ _ h => dMeasure_step h, dStep_reaches_drained, drained_iff_stuck⟩

/-- Witness for `c3_dispatcher_drains`: a concrete `launch` step from the
seeded initial state decreases the measure. -/
theorem c3_witness :
    dMeasure ⟨[], [] ++ [("root", FSTree.dir "root" [])]⟩ <
      dMeasure ⟨[("root", FSTree.dir "root" [])], []⟩ :=
  c3_dispatcher_drains.1 _ _
    (DStep.launch ("root", FSTree.dir "root" []) [] [])

end ClaimsFilterDispatcher

section ClaimsErrors

/-- C6: a missing root path, a root that does not exist (no entry, or only
a broken link), and a root that exists but is not a directory each fail
with the corresponding typed error (`path_absent` / `path_not_exist` /
`path_not_dir`, the source's names for PathMissing / PathNotFound /
PathNotDirectory) as the `std::expected` error value, before any traversal
work: the run prints nothing and the process exit status is the error's
value 4, 5 or 6 — nonzero. -/
theorem c6_preflight_errors :
    (∀ (prm : Params) (fs : String → Option FSTree), prm.path = none →
      finderRun prm fs = .error .path_absent ∧
        runExit (finderRun prm fs) = (4, [])) ∧
    (∀ (prm : Params) (fs : String → Option FSTree) (p : String),
      prm.path = some p → fs p = none →
      finderRun prm fs = .error .path_not_exist ∧
        runExit (finderRun prm fs) = (5, [])) ∧
    (∀ (prm : Params) (fs : String → Option FSTree) (p : String) (t : FSTree),
      prm.path = some p → fs p = some t → t.fsExists = false →
      finderRun prm fs = .error .path_not_exist ∧
        runExit (finderRun prm fs) = (5, [])) ∧
    (∀ (prm : Params) (fs : String → Option FSTree) (p : String) (t : FSTree),
      prm.path = some p → fs p = some t → t.fsExists = true →
      t.isDirectory = false →
      finderRun prm fs = .error .path_not_dir ∧
        runExit (finderRun prm fs) = (6, [])) := by
  refine ⟨?_, ?_, ?_, ?_⟩
  · intro prm fs hp
    have h : finderRun prm fs = .error .path_absent := by
      simp [finderRun, hp]
    exact ⟨h, by simp [h, runExit, ErrorKind.value]⟩
  · intro prm fs p hp hfs
    have h : finderRun prm fs = .error .path_not_exist := by
      simp [finderRun, hp, hfs]
    exact ⟨h, by simp [h, runExit, ErrorKind.value]⟩
  · intro prm fs p t hp hfs hex
    have h : finderRun prm fs = .error .path_not_exist := by
      simp [finderRun, hp, hfs, hex]
    exact ⟨h, by simp [h, runExit, ErrorKind.value]⟩
  · intro prm fs p t hp hfs hex hdir
    have h : finderRun prm fs = .error .path_not_dir := by
      simp [finderRun, hp, hfs, hex, hdir]
    exact ⟨h, by simp [h, runExit, ErrorKind.value]⟩

/-- Witness for `c6_preflight_errors` on concrete inputs: no path at all;
a path mapped to nothing; a broken-link root; a regular-file root. -/
theorem c6_witness :
    runExit (finderRun emptyParams (fun _ => none)) = (4, []) ∧
    runExit (finderRun { emptyParams with path := some "r" }
      (fun _ => none)) = (5, []) ∧
    runExit (finderRun { emptyParams with path := some "r" }
      (fun _ => some (.linkBroken "r"))) = (5, []) ∧
    runExit (finderRun { emptyParams with path := some "r" }
      (fun _ => some (.file "r"))) = (6, []) :=
  ⟨(c6_preflight_errors.1 emptyParams (fun _ => none) rfl).2,
   (c6_preflight_errors.2.1 _ (fun _ => none) "r" rfl rfl).2,
   (c6_preflight_errors.2.2.1 _ (fun _ => some (.linkBroken "r")) "r"
      (.linkBroken "r") rfl rfl rfl).2,
   (c6_preflight_errors.2.2.2 _ (fun _ => some (.file "r")) "r"
      (.file "r") rfl rfl rfl rfl).2⟩

/-- C7 (counterexample): supplying `-type` twice does NOT fail when the
first value is unrecognized: `find -type x -type d` is accepted (and the
run does not abort: `-type` values never reach `regex_from`), because the
duplicate check tests whether the previous occurrence actually SET the
filter (`if (obj.type)`), and `type_filter::from("x")` left it unset. -/
theorem c7_counterexample :
    constructionAborts ["find", "-type", "x", "-type", "d"] = false ∧
    paramsFrom ["find", "-type", "x", "-type", "d"] =
      .ok { path := none, type := some .directories,
            name := none, iname := none } := by
  exact ⟨rfl, rfl⟩

/-- C7 (amended): a repeated `-name` whose first value compiles to a valid
pattern fails with `duplicate_arg` at construction time — the second
occurrence finds the pattern already set — and the process produces no
output and exits with status 1; likewise for `-iname`; a repeated `-type`
fails the same way exactly when the first occurrence's value was
recognized (`d` or `f`), since only then is the filter set.  (With an
INVALID first `-name`/`-iname` value the process instead terminates inside
the `noexcept` `regex_from` before the duplicate check; the
no-abort conjuncts show the stated runs do return.)  In every stated case
the second value is never consumed, so it needs no side condition. -/
theorem c7_duplicate_modifier (a b : String) :
    (patternValid (regexFrom a false) = true →
      constructionAborts ["find", "-name", a, "-name", b] = false ∧
      paramsFrom ["find", "-name", a, "-name", b] = .error .duplicate_arg ∧
      (∀ fs, mainRun ["find", "-name", a, "-name", b] fs = (1, []))) ∧
    (patternValid (regexFrom a true) = true →
      constructionAborts ["find", "-iname", a, "-iname", b] = false ∧
      paramsFrom ["find", "-iname", a, "-iname", b] = .error .duplicate_arg) ∧
    ((typeFilterFrom a).isSome = true →
      constructionAborts ["find", "-type", a, "-type", b] = false ∧
      paramsFrom ["find", "-type", a, "-type", b] = .error .duplicate_arg) := by
  refine ⟨?_, ?_, ?_⟩
  · intro hval
    have h1 : paramsFrom ["find", "-name", a, "-name", b] =
        .error .duplicate_arg := by
      simp [paramsFrom, paramsFromSt, pLoop, startsWithL, emptyParams,
        Except.map]
    refine ⟨?_, h1, ?_⟩
    · simp [constructionAborts, pLoopAborts, startsWithL, emptyParams, hval]
    · intro fs
      simp [mainRun, h1, runExit, Except.bind, ErrorKind.value]
  · intro hval
    constructor
    · simp [constructionAborts, pLoopAborts, startsWithL, emptyParams, hval]
    · simp [paramsFrom, paramsFromSt, pLoop, startsWithL, emptyParams,
        Except.map]
  · intro ht
    constructor
    · simp [constructionAborts, pLoopAborts, startsWithL, emptyParams, ht]
    · simp [paramsFrom, paramsFromSt, pLoop, startsWithL, emptyParams, ht,
        Except.map]

/-- Witness for `c7_duplicate_modifier`: the valid pattern value `a` for
`-name` (no abort, duplicate error, exit 1 with no output) and the
recognized value `d` for `-type`. -/
theorem c7_witness :
    paramsFrom ["find", "-name", "a", "-name", "b"] = .error .duplicate_arg ∧
    mainRun ["find", "-name", "a", "-name", "b"] (fun _ => none) = (1, []) ∧
    paramsFrom ["find", "-type", "d", "-type", "x"] = .error .duplicate_arg :=
  ⟨(((c7_duplicate_modifier "a" "b").1 (by
      simp [patternValid, regexFrom, replaceAll, raGo, startsWithL,
        parseItems, parseItemsF, isRejected])).2.1),
   (((c7_duplicate_modifier "a" "b").1 (by
      simp [patternValid, regexFrom, replaceAll, raGo, startsWithL,
        parseItems, parseItemsF, isRejected])).2.2 (fun _ => none)),
   ((c7_duplicate_modifier "d" "x").2.2 (by decide)).2⟩

end ClaimsErrors

section ClaimsTranslation

/-- The characters over which the translation provably yields a valid
pattern: alphanumerics, `.`, the glob star, and common filename
punctuation.  None of these (except `*`, which the translation rewrites
away) is a regex metacharacter. -/
def safeChar (c : Char) : Bool :=
  c.isAlphanum || c = '.' || c = '*' || c = '_' || c = '-' ||
    c = '/' || c = ' '

theorem safeChar_ne_lbrack {c : Char} (h : safeChar c = true) : c ≠ '[' := by
  intro hc
  subst hc
  exact absurd h (by decide)

theorem safeChar_not_rejected {c : Char} (h : safeChar c = true)
    (hne : c ≠ '*') : isRejected c = false := by
  by_contra hr
  rw [Bool.not_eq_false] at hr
  simp only [isRejected, Bool.or_eq_true, decide_eq_true_eq] at hr
  rcases hr with ((((((((((h1 | h1) | h1) | h1) | h1) | h1) | h1) | h1) |
    h1) | h1) | h1) | h1 <;> subst h1 <;>
    first
      | exact hne rfl
      | exact absurd h (by decide)

/-- The translated text of a safe glob never starts with a bare `*`:
every `*` of the input is rewritten to `.*`, so a `*` can only appear
right after the `.` inserted with it. -/
theorem raGo_head_ne_star : ∀ (cs l : List Char),
    raGo ['*'] ['.', '*'] cs = '*' :: l → False := by
  intro cs l h
  cases cs with
  | nil =>
    rw [raGo] at h
    exact List.noConfusion h
  | cons c cs =>
    by_cases hc : c = '*'
    · subst hc
      rw [raGo, if_pos ⟨by simp [startsWithL], by decide⟩] at h
      simp at h
    · rw [raGo, if_neg] at h
      · injection h with h1 h2
        exact hc h1
      · rintro ⟨hsw, _⟩
        rw [startsWithL] at hsw
        simp [startsWithL] at hsw
        exact hc hsw.symm

theorem optIsSomeMap {α β : Type} (g : α → β) (o : Option α) :
    (Option.map g o).isSome = o.isSome := by
  cases o <;> rfl

/-- Parsing succeeds on the translation of any glob over `safeChar`s,
whatever sufficient fuel is supplied. -/
theorem parse_raGo_safe : ∀ (cs : List Char) (fuel : Nat),
    (raGo ['*'] ['.', '*'] cs).length ≤ fuel →
    (∀ c ∈ cs, safeChar c = true) →
    (parseItemsF fuel (raGo ['*'] ['.', '*'] cs)).isSome = true := by
  intro cs
  induction cs with
  | nil =>
    intro fuel hf hsafe
    rw [raGo]
    cases fuel <;> simp [parseItemsF]
  | cons c cs ih =>
    intro fuel hf hsafe
    have hsc : safeChar c = true := hsafe c (List.mem_cons_self _ _)
    have hscs : ∀ x ∈ cs, safeChar x = true :=
      fun x hx => hsafe x (List.mem_cons_of_mem _ hx)
    by_cases hc : c = '*'
    · subst hc
      have hgoal : raGo ['*'] ['.', '*'] ('*' :: cs) =
          '.' :: '*' :: raGo ['*'] ['.', '*'] cs := by
        rw [raGo, if_pos ⟨by simp [startsWithL], by decide⟩]
        rfl
      rw [hgoal] at hf ⊢
      simp only [List.length_cons] at hf
      cases fuel with
      | zero => omega
      | succ f =>
        show ((parseItemsF f (raGo ['*'] ['.', '*'] cs)).map
          (fun is => RItem.star RAtom.dot :: is)).isSome = true
        rw [optIsSomeMap]
        exact ih f (by omega) hscs
    · have hgoal : raGo ['*'] ['.', '*'] (c :: cs) =
          c :: raGo ['*'] ['.', '*'] cs := by
        rw [raGo, if_neg]
        rintro ⟨hsw, _⟩
        simp [startsWithL] at hsw
        exact hc hsw.symm
      rw [hgoal] at hf ⊢
      simp only [List.length_cons] at hf
      cases fuel with
      | zero => omega
      | succ f =>
        rw [parseItemsF, if_neg (safeChar_ne_lbrack hsc),
          if_neg (by rw [safeChar_not_rejected hsc hc]; exact Bool.false_ne_true)]
        show (match raGo ['*'] ['.', '*'] cs with
          | '*' :: rest2 => Option.map
              (fun is => RItem.star (if c = '.' then RAtom.dot else RAtom.lit c) :: is)
              (parseItemsF f rest2)
          | rest1 => Option.map
              (fun is => RItem.once (if c = '.' then RAtom.dot else RAtom.lit c) :: is)
              (parseItemsF f rest1)).isSome = true
        split
        · rename_i rest2 heq
          exact absurd heq (fun h => raGo_head_ne_star cs rest2 h)
        · rw [optIsSomeMap]
          exact ih f (by omega) hscs

/-- C8 (counterexample): translation is NOT total.  For the input `[`,
`replace_all` leaves the text `[` unchanged, and `std::regex{"["}` throws
`std::regex_error` (`error_brack`: unmatched bracket) — no valid compiled
pattern exists for this input.  (Since `regex_from` is declared
`noexcept`, the throw terminates the process, so the failure indeed never
reaches the caller — by crashing, not by producing a pattern.) -/
theorem c8_counterexample : patternValid (regexFrom "[" false) = false := by
  show (parseItems (replaceAll "[" "*" ".*").data).isSome = false
  rw [replaceAll, if_neg (by decide)]
  show (parseItems (raGo ['*'] ['.', '*'] ['['])).isSome = false
  rw [raGo, if_neg (by simp [startsWithL]), raGo]
  rfl

/-- C8 (amended): the translation yields a valid compiled pattern for
every glob whose characters are alphanumerics, `.`, `*`, `_`, `-`, `/` or
space — i.e. whenever the input contains no regex metacharacter other than
the glob star; an input such as `[` instead makes `std::regex` throw at
construction (see `c8_counterexample`). -/
theorem c8_translation_total_on_safe (s : String) (icase : Bool)
    (h : s.data.all safeChar = true) :
    patternValid (regexFrom s icase) = true := by
  have hall : ∀ c ∈ s.data, safeChar c = true := by
    rw [List.all_eq_true] at h
    intro c hc
    exact h c hc
  show (parseItems (replaceAll s "*" ".*").data).isSome = true
  rw [replaceAll, if_neg (by decide)]
  show (parseItems (raGo ['*'] ['.', '*'] s.data)).isSome = true
  exact parse_raGo_safe s.data _ le_rfl hall

/-- Witness for `c8_translation_total_on_safe`: the everyday glob
`*.txt`. -/
theorem c8_witness : patternValid (regexFrom "*.txt" false) = true :=
  c8_translation_total_on_safe "*.txt" false (by decide)

end ClaimsTranslation

section ClaimsArgs

/-- C9: any `-type` value other than exactly `d` or `f` — including every
multi-character value — is silently dropped: `type_filter::from` yields no
filter, construction succeeds with the whole parameter object untouched,
and the traversal therefore runs with no type constraint instead of
failing validation. -/
theorem c9_unrecognized_type_value (s : String) (hd : s ≠ "d")
    (hf : s ≠ "f") :
    typeFilterFrom s = none ∧
    paramsFrom ["find", "-type", s] = .ok emptyParams := by
  have h1 : typeFilterFrom s = none := by
    obtain ⟨l⟩ := s
    rcases l with _ | ⟨c, rest⟩
    · rfl
    · rcases rest with _ | ⟨c2, rest2⟩
      · show (if c = 'd' then some TypeFilter.directories
          else if c = 'f' then some TypeFilter.files else none) = none
        rw [if_neg (fun hc => hd (by rw [hc])),
          if_neg (fun hc => hf (by rw [hc]))]
      · rfl
  refine ⟨h1, ?_⟩
  simp [paramsFrom, paramsFromSt, pLoop, startsWithL, h1, emptyParams,
    Except.map]

/-- Witness for `c9_unrecognized_type_value` at the value `x`. -/
theorem c9_witness :
    paramsFrom ["find", "-type", "x"] = .ok emptyParams :=
  (c9_unrecognized_type_value "x" (by decide) (by decide)).2

/-- C10 (counterexample): a dangling modifier is NOT always accepted.
When the trailing modifier duplicates a filter that is already set, the
duplicate check fires before any value would be read:
`find -name a -name` fails with `duplicate_arg` (and this run does not
abort — the pattern `a` is valid — so the error really is what the
program returns). -/
theorem c10_counterexample :
    constructionAborts ["find", "-name", "a", "-name"] = false ∧
    paramsFrom ["find", "-name", "a", "-name"] = .error .duplicate_arg := by
  constructor
  · simp [constructionAborts, pLoopAborts, startsWithL, emptyParams,
      patternValid, regexFrom, replaceAll, raGo, parseItems, parseItemsF,
      isRejected]
  · simp [paramsFrom, paramsFromSt, pLoop, startsWithL, emptyParams,
      Except.map]

/-- The argument loop processes an appended suffix from the state in which
the prefix left it. -/
theorem pLoop_append : ∀ (xs : List String) (obj : Params) (cur : Mode)
    (ys : List String),
    pLoop obj cur (xs ++ ys) =
      match pLoop obj cur xs with
      | .ok oc => pLoop oc.1 oc.2 ys
      | .error e => .error e := by
  intro xs
  induction xs with
  | nil => intro obj cur ys; rfl
  | cons a xs ih =>
    intro obj cur ys
    cases cur with
    | mnone =>
      simp only [List.cons_append, pLoop]
      split_ifs <;> simp [ih]
    | mtype =>
      simp only [List.cons_append, pLoop]
      exact ih _ _ _
    | mname =>
      simp only [List.cons_append, pLoop]
      exact ih _ _ _
    | miname =>
      simp only [List.cons_append, pLoop]
      exact ih _ _ _

/-- `params::from` on a command line extended by further arguments: with
at least a program name and one argument present, the added suffix is
handled by the loop from the prefix's final state. -/
theorem paramsFromSt_append (args ys : List String)
    (hlen : 2 ≤ args.length) :
    paramsFromSt (args ++ ys) =
      match paramsFromSt args with
      | .ok oc => pLoop oc.1 oc.2 ys
      | .error e => .error e := by
  rcases args with _ | ⟨a0, args1⟩
  · simp at hlen
  rcases args1 with _ | ⟨a1, rest⟩
  · simp at hlen
  rw [show (a0 :: a1 :: rest) ++ ys = a0 :: a1 :: (rest ++ ys) from rfl]
  rw [paramsFromSt, paramsFromSt]
  rw [if_neg (by simp), if_neg (by simp)]
  simp only [List.drop_succ_cons, List.drop_zero]
  by_cases hsw : startsWithL "-".data a1.data = true
  · rw [if_pos hsw, if_pos hsw, ← List.cons_append, pLoop_append]
  · rw [if_neg hsw, if_neg hsw, pLoop_append]

/-- The abort predicate over a split argument list: the combined walk
aborts when the prefix's walk aborts, or when the prefix's loop returned
successfully (an early `duplicate_arg`/`unknown_arg` return consumes no
further argument) and the suffix's walk aborts from the prefix's final
state. -/
theorem pLoopAborts_append : ∀ (xs : List String) (obj : Params)
    (cur : Mode) (ys : List String),
    pLoopAborts obj cur (xs ++ ys) =
      (pLoopAborts obj cur xs ||
        match pLoop obj cur xs with
        | .ok oc => pLoopAborts oc.1 oc.2 ys
        | .error _ => false) := by
  intro xs
  induction xs with
  | nil => intro obj cur ys; rfl
  | cons a xs ih =>
    intro obj cur ys
    cases cur with
    | mnone =>
      simp only [List.cons_append, pLoopAborts, pLoop]
      split_ifs <;> simp [ih]
    | mtype =>
      simp only [List.cons_append, pLoopAborts, pLoop]
      exact ih _ _ _
    | mname =>
      simp only [List.cons_append, pLoopAborts, pLoop]
      split_ifs <;> simp [ih]
    | miname =>
      simp only [List.cons_append, pLoopAborts, pLoop]
      split_ifs <;> simp [ih]

/-- `constructionAborts` on a command line extended by further arguments:
with at least a program name and one argument present, the run aborts
exactly when the prefix already aborts, or the prefix's construction
returned a state from which the suffix aborts. -/
theorem constructionAborts_append (args ys : List String)
    (hlen : 2 ≤ args.length) :
    constructionAborts (args ++ ys) =
      (constructionAborts args ||
        match paramsFromSt args with
        | .ok oc => pLoopAborts oc.1 oc.2 ys
        | .error _ => false) := by
  rcases args with _ | ⟨a0, args1⟩
  · simp at hlen
  rcases args1 with _ | ⟨a1, rest⟩
  · simp at hlen
  rw [show (a0 :: a1 :: rest) ++ ys = a0 :: a1 :: (rest ++ ys) from rfl]
  rw [constructionAborts, constructionAborts, paramsFromSt]
  rw [if_neg (by simp), if_neg (by simp), if_neg (by simp)]
  simp only [List.drop_succ_cons, List.drop_zero]
  by_cases hsw : startsWithL "-".data a1.data = true
  · rw [if_pos hsw, if_pos hsw, if_pos hsw, ← List.cons_append,
      pLoopAborts_append]
  · rw [if_neg hsw, if_neg hsw, if_neg hsw, pLoopAborts_append]

/-- C10 (amended): for a command line whose construction returns normally
(it neither aborts inside `regex_from` — an invalid `-name`/`-iname` value
would terminate the process — nor ends in a pending modifier), appending a
modifier flag with no following value still succeeds, with that filter
left unset, and the extended run still does not abort (the dangling
modifier never reads a value, so it never reaches `regex_from`) — PROVIDED
the dangling modifier does not duplicate a filter that is already set (a
dangling duplicate still fails with `duplicate_arg`, see
`c10_counterexample`); in no case is a `generic` or other error raised
for the missing value itself. -/
theorem c10_dangling_modifier (args : List String) (obj : Params)
    (hlen : 2 ≤ args.length)
    (hab : constructionAborts args = false)
    (hok : paramsFromSt args = .ok (obj, .mnone)) :
    (obj.type = none → constructionAborts (args ++ ["-type"]) = false ∧
      paramsFrom (args ++ ["-type"]) = .ok obj) ∧
    (obj.name = none → constructionAborts (args ++ ["-name"]) = false ∧
      paramsFrom (args ++ ["-name"]) = .ok obj) ∧
    (obj.iname = none → constructionAborts (args ++ ["-iname"]) = false ∧
      paramsFrom (args ++ ["-iname"]) = .ok obj) := by
  refine ⟨fun hnone => ⟨?_, ?_⟩, fun hnone => ⟨?_, ?_⟩,
    fun hnone => ⟨?_, ?_⟩⟩
  · rw [constructionAborts_append args _ hlen, hab, hok]
    simp [pLoopAborts, hnone]
  · rw [paramsFrom, paramsFromSt_append args _ hlen, hok]
    simp [pLoop, hnone, Except.map]
  · rw [constructionAborts_append args _ hlen, hab, hok]
    simp [pLoopAborts, hnone]
  · rw [paramsFrom, paramsFromSt_append args _ hlen, hok]
    simp [pLoop, hnone, Except.map]
  · rw [constructionAborts_append args _ hlen, hab, hok]
    simp [pLoopAborts, hnone]
  · rw [paramsFrom, paramsFromSt_append args _ hlen, hok]
    simp [pLoop, hnone, Except.map]

/-- Witness for `c10_dangling_modifier`: `find r -name` succeeds with the
name filter unset, without aborting. -/
theorem c10_witness :
    constructionAborts (["find", "r"] ++ ["-name"]) = false ∧
    paramsFrom (["find", "r"] ++ ["-name"]) =
      .ok { path := some "r", type := none, name := none, iname := none } :=
  (c10_dangling_modifier ["find", "r"]
      { path := some "r", type := none, name := none, iname := none }
      (by decide) rfl rfl).2.1 rfl

end ClaimsArgs
